import Mathlib

/-!
Shallow embedding of `src/src/nightly.rs` from the `atomic-rs` repository.

The source file implements generic atomic memory access for an arbitrary
type `T`: each public operation matches on `mem::size_of::<T>()`, and when
the size is 1, 2, 4 or 8, the alignment is at least that size, and the
build target has the corresponding `cfg(target_has_atomic = ...)` flag, it
reinterprets the value as `AtomicU8/U16/U32/U64` via `mem::transmute_copy`
and executes the native atomic operation; otherwise it calls into the
external `fallback` module (declared `mod fallback;`, body not part of the
visible source).

Embedding choices:
- a Rust type `T` is represented by its compile-time facts
  (`TypeInfo`: byte size and alignment), the build target by the four
  `target_has_atomic` flags (`Target`);
- memory is byte addressed (`Mem : Nat -> Nat`, each byte taken mod 256);
  a value of `T` is identified with its little-endian bit pattern, a `Nat`;
- `mem::transmute_copy` between a `w`-byte pattern and the `w`-byte
  unsigned integer is the identity on bit patterns; the byte-list form of
  the bridge is `transmute_to_uint` / `transmute_from_uint`;
- orderings do not change the sequential functional behaviour of the
  hardware primitives, so the `atomicU_*` helpers take and ignore no
  ordering; the public operations keep the `order` parameters of the
  source signatures;
- the nondeterministic spurious failure of `compare_exchange_weak` is
  determinized by an explicit oracle parameter `spurious`;
- each public operation additionally returns an `Option FallbackCall`
  recording exactly the arguments passed across the fallback boundary
  (`none` when a native branch is taken), mirroring the call sites of the
  source, e.g. `fallback::atomic_load(dst)` on line 49.
-/

namespace Atomic

/-- Memory orderings, `core::sync::atomic::Ordering`. -/
inductive Ordering where
  | Relaxed
  | Acquire
  | Release
  | AcqRel
  | SeqCst
deriving DecidableEq

/-- Compile-time facts about a Rust type `T`: `mem::size_of::<T>()` and
`mem::align_of::<T>()` in bytes. -/
structure TypeInfo where
  size : Nat
  align : Nat
deriving DecidableEq

/-- Build-target capability flags: `cfg(target_has_atomic = "8" | "16" |
"32" | "64")`, resolved once at build configuration. -/
structure Target where
  has8 : Bool
  has16 : Bool
  has32 : Bool
  has64 : Bool
deriving DecidableEq

/-- Byte-addressed memory: the byte stored at each address (taken mod 256
by every reader and writer). -/
abbrev Mem := Nat → Nat

/-- Little-endian unsigned-integer value of the `w` bytes starting at
`addr`. -/
def readBytes (m : Mem) (addr : Nat) : Nat → Nat
  | 0 => 0
  | w + 1 => m addr % 256 + 256 * readBytes m (addr + 1) w

/-- Overwrite the `w` bytes starting at `addr` with the little-endian
representation of `v`; every other address is untouched. -/
def writeBytes (m : Mem) (addr w v : Nat) : Mem :=
  fun a => if addr ≤ a ∧ a < addr + w then v / 256 ^ (a - addr) % 256 else m a

/-- Rust's `Result<A, B>` with its `Ok` and `Err` variants. -/
inductive Result (α β : Type) where
  | Ok (x : α)
  | Err (x : β)
deriving DecidableEq

/-- Embeds `map_result` (nightly.rs lines 103-108): rewraps each variant of
a `Result<T, T>` around `mem::transmute_copy` of its payload; on bit
patterns the transmute is the identity. -/
def map_result (r : Result Nat Nat) : Result Nat Nat :=
  match r with
  | .Ok x => .Ok x
  | .Err x => .Err x

/-- BitcastBridge, one direction: the `w`-byte pattern (list of bytes,
least significant first) read as the `w`-byte unsigned integer, as
`mem::transmute_copy::<T, uN>` does. -/
def transmute_to_uint : List Nat → Nat
  | [] => 0
  | b :: bs => b % 256 + 256 * transmute_to_uint bs

/-- BitcastBridge, other direction: the `w`-byte unsigned integer written
back as a `w`-byte pattern, as `mem::transmute_copy::<uN, T>` does. -/
def transmute_from_uint : Nat → Nat → List Nat
  | 0, _ => []
  | w + 1, v => v % 256 :: transmute_from_uint w (v / 256)

/-- Sequential semantics of `AtomicUN::load` at byte width `w`. -/
def atomicU_load (w : Nat) (m : Mem) (dst : Nat) : Nat :=
  readBytes m dst w

/-- Sequential semantics of `AtomicUN::store` at byte width `w`. -/
def atomicU_store (w : Nat) (m : Mem) (dst v : Nat) : Mem :=
  writeBytes m dst w v

/-- Sequential semantics of `AtomicUN::swap` at byte width `w`: store `v`,
return the previous value. -/
def atomicU_swap (w : Nat) (m : Mem) (dst v : Nat) : Nat × Mem :=
  (readBytes m dst w, writeBytes m dst w v)

/-- Sequential semantics of `AtomicUN::compare_exchange` at byte width
`w`: if the stored value equals `cur`, store `new` and return `Ok` of the
previous value, else leave memory unchanged and return `Err` of the
observed value. -/
def atomicU_compare_exchange (w : Nat) (m : Mem) (dst cur new : Nat) :
    Result Nat Nat × Mem :=
  let old := readBytes m dst w
  if old = cur then (.Ok old, writeBytes m dst w new) else (.Err old, m)

/-- Sequential semantics of `AtomicUN::compare_exchange_weak` at byte
width `w`: the hardware may fail spuriously; the oracle `spurious`
determinizes that choice. On a spurious failure memory is unchanged and
the observed value is returned in the `Err` variant. -/
def atomicU_compare_exchange_weak (w : Nat) (spurious : Bool) (m : Mem)
    (dst cur new : Nat) : Result Nat Nat × Mem :=
  let old := readBytes m dst w
  if spurious then (.Err old, m) else atomicU_compare_exchange w m dst cur new

/-- Sequential semantics of `AtomicUN::fetch_add` at byte width `w`:
wrapping addition modulo `2 ^ (8 * w)`, returning the previous value. -/
def atomicU_fetch_add (w : Nat) (m : Mem) (dst v : Nat) : Nat × Mem :=
  let old := readBytes m dst w
  (old, writeBytes m dst w ((old + v) % 2 ^ (8 * w)))

/-- Sequential semantics of `AtomicUN::fetch_sub` at byte width `w`:
wrapping subtraction modulo `2 ^ (8 * w)` (in `Nat` form: add the additive
complement of `v`), returning the previous value. -/
def atomicU_fetch_sub (w : Nat) (m : Mem) (dst v : Nat) : Nat × Mem :=
  let old := readBytes m dst w
  (old,
   writeBytes m dst w ((old + (2 ^ (8 * w) - v % 2 ^ (8 * w))) % 2 ^ (8 * w)))

/-- Sequential semantics of `AtomicUN::fetch_and` at byte width `w`. -/
def atomicU_fetch_and (w : Nat) (m : Mem) (dst v : Nat) : Nat × Mem :=
  let old := readBytes m dst w
  (old, writeBytes m dst w (old &&& v))

/-- Sequential semantics of `AtomicUN::fetch_or` at byte width `w`. -/
def atomicU_fetch_or (w : Nat) (m : Mem) (dst v : Nat) : Nat × Mem :=
  let old := readBytes m dst w
  (old, writeBytes m dst w (old ||| v))

/-- Sequential semantics of `AtomicUN::fetch_xor` at byte width `w`. -/
def atomicU_fetch_xor (w : Nat) (m : Mem) (dst v : Nat) : Nat × Mem :=
  let old := readBytes m dst w
  (old, writeBytes m dst w (old ^^^ v))

/-- Record of one call into the external `fallback` module, carrying
exactly the arguments the call sites of nightly.rs pass (the addressed
location and the value operands; the call sites pass no ordering). -/
inductive FallbackCall where
  | load (dst : Nat)
  | store (dst : Nat) (val : Nat)
  | swap (dst : Nat) (val : Nat)
  | compare_exchange (dst : Nat) (current : Nat) (new : Nat)
  | add (dst : Nat) (val : Nat)
  | sub (dst : Nat) (val : Nat)
  | and (dst : Nat) (val : Nat)
  | or (dst : Nat) (val : Nat)
  | xor (dst : Nat) (val : Nat)
deriving DecidableEq

namespace fallback

/-- Modelled from the spec: the body of `mod fallback;` is not part of the
visible source. Per the spec the fallback subsystem implements the
identical nine-operation catalogue directly on the generic type for any
size, via coarse-grained locking; sequentially, its load reads the value
at `dst`. -/
def atomic_load (t : TypeInfo) (m : Mem) (dst : Nat) : Nat :=
  atomicU_load t.size m dst

/-- Modelled from the spec (`mod fallback;` body not in the visible
source): store the value at `dst`. -/
def atomic_store (t : TypeInfo) (m : Mem) (dst val : Nat) : Mem :=
  atomicU_store t.size m dst val

/-- Modelled from the spec (`mod fallback;` body not in the visible
source): store the value at `dst`, return the previous value. -/
def atomic_swap (t : TypeInfo) (m : Mem) (dst val : Nat) : Nat × Mem :=
  atomicU_swap t.size m dst val

/-- Modelled from the spec (`mod fallback;` body not in the visible
source): strong compare-exchange on the generic type; the fallback has no
weak variant, both strong and weak dispatch call this one. -/
def atomic_compare_exchange (t : TypeInfo) (m : Mem) (dst current new : Nat) :
    Result Nat Nat × Mem :=
  atomicU_compare_exchange t.size m dst current new

/-- Modelled from the spec (`mod fallback;` body not in the visible
source): wrapping add at the width of the generic type, returning the
previous value. -/
def atomic_add (t : TypeInfo) (m : Mem) (dst val : Nat) : Nat × Mem :=
  atomicU_fetch_add t.size m dst val

/-- Modelled from the spec (`mod fallback;` body not in the visible
source): wrapping subtract at the width of the generic type, returning the
previous value. -/
def atomic_sub (t : TypeInfo) (m : Mem) (dst val : Nat) : Nat × Mem :=
  atomicU_fetch_sub t.size m dst val

/-- Modelled from the spec (`mod fallback;` body not in the visible
source): bitwise and, returning the previous value. -/
def atomic_and (t : TypeInfo) (m : Mem) (dst val : Nat) : Nat × Mem :=
  atomicU_fetch_and t.size m dst val

/-- Modelled from the spec (`mod fallback;` body not in the visible
source): bitwise or, returning the previous value. -/
def atomic_or (t : TypeInfo) (m : Mem) (dst val : Nat) : Nat × Mem :=
  atomicU_fetch_or t.size m dst val

/-- Modelled from the spec (`mod fallback;` body not in the visible
source): bitwise xor, returning the previous value. -/
def atomic_xor (t : TypeInfo) (m : Mem) (dst val : Nat) : Nat × Mem :=
  atomicU_fetch_xor t.size m dst val

end fallback

/-- Embeds `atomic_is_lock_free` (nightly.rs lines 16-28): the `match` on
`size_of::<T>` with its four `cfg(target_has_atomic)`-gated guarded arms,
written as the equivalent first-match-wins chain; any failing condition
falls through to the `_ => false` arm. No memory argument appears: the
decision uses compile-time facts only. -/
def atomic_is_lock_free (tgt : Target) (t : TypeInfo) : Bool :=
  if t.size = 1 ∧ tgt.has8 = true ∧ 1 ≤ t.align then true
  else if t.size = 2 ∧ tgt.has16 = true ∧ 2 ≤ t.align then true
  else if t.size = 4 ∧ tgt.has32 = true ∧ 4 ≤ t.align then true
  else if t.size = 8 ∧ tgt.has64 = true ∧ 8 ≤ t.align then true
  else false

/-- Embeds `atomic_load` (nightly.rs lines 31-51): dispatch on size and
alignment to the native `AtomicUN` load of the matching width, else the
`_` arm calls `fallback::atomic_load(dst)` (line 49, no ordering passed).
The second component records the fallback call, `none` on a native
branch. -/
def atomic_load (tgt : Target) (t : TypeInfo) (m : Mem) (dst : Nat)
    (order : Ordering) : Nat × Option FallbackCall :=
  if t.size = 1 ∧ tgt.has8 = true ∧ 1 ≤ t.align then
    (atomicU_load 1 m dst, none)
  else if t.size = 2 ∧ tgt.has16 = true ∧ 2 ≤ t.align then
    (atomicU_load 2 m dst, none)
  else if t.size = 4 ∧ tgt.has32 = true ∧ 4 ≤ t.align then
    (atomicU_load 4 m dst, none)
  else if t.size = 8 ∧ tgt.has64 = true ∧ 8 ≤ t.align then
    (atomicU_load 8 m dst, none)
  else
    (fallback.atomic_load t m dst, some (.load dst))

/-- Embeds `atomic_store` (nightly.rs lines 54-74); the `_` arm calls
`fallback::atomic_store(dst, val)` (line 72, no ordering passed). -/
def atomic_store (tgt : Target) (t : TypeInfo) (m : Mem) (dst val : Nat)
    (order : Ordering) : Mem × Option FallbackCall :=
  if t.size = 1 ∧ tgt.has8 = true ∧ 1 ≤ t.align then
    (atomicU_store 1 m dst val, none)
  else if t.size = 2 ∧ tgt.has16 = true ∧ 2 ≤ t.align then
    (atomicU_store 2 m dst val, none)
  else if t.size = 4 ∧ tgt.has32 = true ∧ 4 ≤ t.align then
    (atomicU_store 4 m dst val, none)
  else if t.size = 8 ∧ tgt.has64 = true ∧ 8 ≤ t.align then
    (atomicU_store 8 m dst val, none)
  else
    (fallback.atomic_store t m dst val, some (.store dst val))

/-- Embeds `atomic_swap` (nightly.rs lines 77-100); the `_` arm calls
`fallback::atomic_swap(dst, val)` (line 98, no ordering passed). -/
def atomic_swap (tgt : Target) (t : TypeInfo) (m : Mem) (dst val : Nat)
    (order : Ordering) : Nat × Mem × Option FallbackCall :=
  if t.size = 1 ∧ tgt.has8 = true ∧ 1 ≤ t.align then
    ((atomicU_swap 1 m dst val).1, (atomicU_swap 1 m dst val).2, none)
  else if t.size = 2 ∧ tgt.has16 = true ∧ 2 ≤ t.align then
    ((atomicU_swap 2 m dst val).1, (atomicU_swap 2 m dst val).2, none)
  else if t.size = 4 ∧ tgt.has32 = true ∧ 4 ≤ t.align then
    ((atomicU_swap 4 m dst val).1, (atomicU_swap 4 m dst val).2, none)
  else if t.size = 8 ∧ tgt.has64 = true ∧ 8 ≤ t.align then
    ((atomicU_swap 8 m dst val).1, (atomicU_swap 8 m dst val).2, none)
  else
    ((fallback.atomic_swap t m dst val).1, (fallback.atomic_swap t m dst val).2,
     some (.swap dst val))

/-- Embeds `atomic_compare_exchange` (nightly.rs lines 111-148): native
branches pass the transmuted operands to `AtomicUN::compare_exchange` with
both orderings and rewrap the result through `map_result`; the `_` arm
calls `fallback::atomic_compare_exchange(dst, current, new)` (line 146, no
orderings passed). -/
def atomic_compare_exchange (tgt : Target) (t : TypeInfo) (m : Mem)
    (dst current new : Nat) (success failure : Ordering) :
    Result Nat Nat × Mem × Option FallbackCall :=
  if t.size = 1 ∧ tgt.has8 = true ∧ 1 ≤ t.align then
    (map_result (atomicU_compare_exchange 1 m dst current new).1,
     (atomicU_compare_exchange 1 m dst current new).2, none)
  else if t.size = 2 ∧ tgt.has16 = true ∧ 2 ≤ t.align then
    (map_result (atomicU_compare_exchange 2 m dst current new).1,
     (atomicU_compare_exchange 2 m dst current new).2, none)
  else if t.size = 4 ∧ tgt.has32 = true ∧ 4 ≤ t.align then
    (map_result (atomicU_compare_exchange 4 m dst current new).1,
     (atomicU_compare_exchange 4 m dst current new).2, none)
  else if t.size = 8 ∧ tgt.has64 = true ∧ 8 ≤ t.align then
    (map_result (atomicU_compare_exchange 8 m dst current new).1,
     (atomicU_compare_exchange 8 m dst current new).2, none)
  else
    ((fallback.atomic_compare_exchange t m dst current new).1,
     (fallback.atomic_compare_exchange t m dst current new).2,
     some (.compare_exchange dst current new))

/-- Embeds `atomic_compare_exchange_weak` (nightly.rs lines 151-192):
native branches use `AtomicUN::compare_exchange_weak` (spurious failure
determinized by the oracle `spurious`); the `_` arm calls the strong
`fallback::atomic_compare_exchange(dst, current, new)` (line 190, no
orderings passed, no spurious failure). -/
def atomic_compare_exchange_weak (spurious : Bool) (tgt : Target)
    (t : TypeInfo) (m : Mem) (dst current new : Nat)
    (success failure : Ordering) :
    Result Nat Nat × Mem × Option FallbackCall :=
  if t.size = 1 ∧ tgt.has8 = true ∧ 1 ≤ t.align then
    (map_result (atomicU_compare_exchange_weak 1 spurious m dst current new).1,
     (atomicU_compare_exchange_weak 1 spurious m dst current new).2, none)
  else if t.size = 2 ∧ tgt.has16 = true ∧ 2 ≤ t.align then
    (map_result (atomicU_compare_exchange_weak 2 spurious m dst current new).1,
     (atomicU_compare_exchange_weak 2 spurious m dst current new).2, none)
  else if t.size = 4 ∧ tgt.has32 = true ∧ 4 ≤ t.align then
    (map_result (atomicU_compare_exchange_weak 4 spurious m dst current new).1,
     (atomicU_compare_exchange_weak 4 spurious m dst current new).2, none)
  else if t.size = 8 ∧ tgt.has64 = true ∧ 8 ≤ t.align then
    (map_result (atomicU_compare_exchange_weak 8 spurious m dst current new).1,
     (atomicU_compare_exchange_weak 8 spurious m dst current new).2, none)
  else
    ((fallback.atomic_compare_exchange t m dst current new).1,
     (fallback.atomic_compare_exchange t m dst current new).2,
     some (.compare_exchange dst current new))

/-- Embeds `atomic_add` (nightly.rs lines 195-221); native branches use
`AtomicUN::fetch_add` (wrapping); the `_` arm calls
`fallback::atomic_add(dst, val)` (line 219, no ordering passed). -/
def atomic_add (tgt : Target) (t : TypeInfo) (m : Mem) (dst val : Nat)
    (order : Ordering) : Nat × Mem × Option FallbackCall :=
  if t.size = 1 ∧ tgt.has8 = true ∧ 1 ≤ t.align then
    ((atomicU_fetch_add 1 m dst val).1, (atomicU_fetch_add 1 m dst val).2, none)
  else if t.size = 2 ∧ tgt.has16 = true ∧ 2 ≤ t.align then
    ((atomicU_fetch_add 2 m dst val).1, (atomicU_fetch_add 2 m dst val).2, none)
  else if t.size = 4 ∧ tgt.has32 = true ∧ 4 ≤ t.align then
    ((atomicU_fetch_add 4 m dst val).1, (atomicU_fetch_add 4 m dst val).2, none)
  else if t.size = 8 ∧ tgt.has64 = true ∧ 8 ≤ t.align then
    ((atomicU_fetch_add 8 m dst val).1, (atomicU_fetch_add 8 m dst val).2, none)
  else
    ((fallback.atomic_add t m dst val).1, (fallback.atomic_add t m dst val).2,
     some (.add dst val))

/-- Embeds `atomic_sub` (nightly.rs lines 224-250); native branches use
`AtomicUN::fetch_sub` (wrapping); the `_` arm calls
`fallback::atomic_sub(dst, val)` (line 248, no ordering passed). -/
def atomic_sub (tgt : Target) (t : TypeInfo) (m : Mem) (dst val : Nat)
    (order : Ordering) : Nat × Mem × Option FallbackCall :=
  if t.size = 1 ∧ tgt.has8 = true ∧ 1 ≤ t.align then
    ((atomicU_fetch_sub 1 m dst val).1, (atomicU_fetch_sub 1 m dst val).2, none)
  else if t.size = 2 ∧ tgt.has16 = true ∧ 2 ≤ t.align then
    ((atomicU_fetch_sub 2 m dst val).1, (atomicU_fetch_sub 2 m dst val).2, none)
  else if t.size = 4 ∧ tgt.has32 = true ∧ 4 ≤ t.align then
    ((atomicU_fetch_sub 4 m dst val).1, (atomicU_fetch_sub 4 m dst val).2, none)
  else if t.size = 8 ∧ tgt.has64 = true ∧ 8 ≤ t.align then
    ((atomicU_fetch_sub 8 m dst val).1, (atomicU_fetch_sub 8 m dst val).2, none)
  else
    ((fallback.atomic_sub t m dst val).1, (fallback.atomic_sub t m dst val).2,
     some (.sub dst val))

/-- Embeds `atomic_and` (nightly.rs lines 253-280); the `_` arm calls
`fallback::atomic_and(dst, val)` (line 278, no ordering passed). -/
def atomic_and (tgt : Target) (t : TypeInfo) (m : Mem) (dst val : Nat)
    (order : Ordering) : Nat × Mem × Option FallbackCall :=
  if t.size = 1 ∧ tgt.has8 = true ∧ 1 ≤ t.align then
    ((atomicU_fetch_and 1 m dst val).1, (atomicU_fetch_and 1 m dst val).2, none)
  else if t.size = 2 ∧ tgt.has16 = true ∧ 2 ≤ t.align then
    ((atomicU_fetch_and 2 m dst val).1, (atomicU_fetch_and 2 m dst val).2, none)
  else if t.size = 4 ∧ tgt.has32 = true ∧ 4 ≤ t.align then
    ((atomicU_fetch_and 4 m dst val).1, (atomicU_fetch_and 4 m dst val).2, none)
  else if t.size = 8 ∧ tgt.has64 = true ∧ 8 ≤ t.align then
    ((atomicU_fetch_and 8 m dst val).1, (atomicU_fetch_and 8 m dst val).2, none)
  else
    ((fallback.atomic_and t m dst val).1, (fallback.atomic_and t m dst val).2,
     some (.and dst val))

/-- Embeds `atomic_or` (nightly.rs lines 283-310); the `_` arm calls
`fallback::atomic_or(dst, val)` (line 308, no ordering passed). -/
def atomic_or (tgt : Target) (t : TypeInfo) (m : Mem) (dst val : Nat)
    (order : Ordering) : Nat × Mem × Option FallbackCall :=
  if t.size = 1 ∧ tgt.has8 = true ∧ 1 ≤ t.align then
    ((atomicU_fetch_or 1 m dst val).1, (atomicU_fetch_or 1 m dst val).2, none)
  else if t.size = 2 ∧ tgt.has16 = true ∧ 2 ≤ t.align then
    ((atomicU_fetch_or 2 m dst val).1, (atomicU_fetch_or 2 m dst val).2, none)
  else if t.size = 4 ∧ tgt.has32 = true ∧ 4 ≤ t.align then
    ((atomicU_fetch_or 4 m dst val).1, (atomicU_fetch_or 4 m dst val).2, none)
  else if t.size = 8 ∧ tgt.has64 = true ∧ 8 ≤ t.align then
    ((atomicU_fetch_or 8 m dst val).1, (atomicU_fetch_or 8 m dst val).2, none)
  else
    ((fallback.atomic_or t m dst val).1, (fallback.atomic_or t m dst val).2,
     some (.or dst val))

/-- Embeds `atomic_xor` (nightly.rs lines 313-340); the `_` arm calls
`fallback::atomic_xor(dst, val)` (line 338, no ordering passed). -/
def atomic_xor (tgt : Target) (t : TypeInfo) (m : Mem) (dst val : Nat)
    (order : Ordering) : Nat × Mem × Option FallbackCall :=
  if t.size = 1 ∧ tgt.has8 = true ∧ 1 ≤ t.align then
    ((atomicU_fetch_xor 1 m dst val).1, (atomicU_fetch_xor 1 m dst val).2, none)
  else if t.size = 2 ∧ tgt.has16 = true ∧ 2 ≤ t.align then
    ((atomicU_fetch_xor 2 m dst val).1, (atomicU_fetch_xor 2 m dst val).2, none)
  else if t.size = 4 ∧ tgt.has32 = true ∧ 4 ≤ t.align then
    ((atomicU_fetch_xor 4 m dst val).1, (atomicU_fetch_xor 4 m dst val).2, none)
  else if t.size = 8 ∧ tgt.has64 = true ∧ 8 ≤ t.align then
    ((atomicU_fetch_xor 8 m dst val).1, (atomicU_fetch_xor 8 m dst val).2, none)
  else
    ((fallback.atomic_xor t m dst val).1, (fallback.atomic_xor t m dst val).2,
     some (.xor dst val))

/-- Spec-side reading of "the build target declares native atomic support
for that width": the `target_has_atomic` flag for the given byte width. -/
def targetDeclares (tgt : Target) : Nat → Bool
  | 1 => tgt.has8
  | 2 => tgt.has16
  | 4 => tgt.has32
  | 8 => tgt.has64
  | _ => false

/-- Convenience: the modulus of a `w`-byte value, in byte form. -/
theorem two_pow_eq_256_pow (w : Nat) : (2 : Nat) ^ (8 * w) = 256 ^ w := by
  rw [pow_mul]; norm_num

/-- Every `w`-byte read is below the `w`-byte modulus. -/
theorem readBytes_lt (m : Mem) (addr : Nat) : ∀ w, readBytes m addr w < 256 ^ w := by
  intro w
  induction w generalizing addr with
  | zero => simp [readBytes]
  | succ w ih =>
    have h1 : m addr % 256 < 256 := Nat.mod_lt _ (by norm_num)
    have h2 : readBytes m (addr + 1) w < 256 ^ w := ih (addr + 1)
    calc m addr % 256 + 256 * readBytes m (addr + 1) w
        < 256 + 256 * readBytes m (addr + 1) w := by omega
      _ = 256 * (readBytes m (addr + 1) w + 1) := by ring
      _ ≤ 256 * 256 ^ w := Nat.mul_le_mul_left _ (by omega)
      _ = 256 ^ (w + 1) := by rw [pow_succ]; ring

/-- Reading `w` bytes only looks at the addresses `addr + i` with
`i < w`. -/
theorem readBytes_congr {m₁ m₂ : Mem} {addr : Nat} :
    ∀ {w : Nat}, (∀ i, i < w → m₁ (addr + i) = m₂ (addr + i)) →
      readBytes m₁ addr w = readBytes m₂ addr w := by
  intro w
  induction w generalizing addr with
  | zero => intro _; rfl
  | succ w ih =>
    intro h
    have h0 : m₁ addr = m₂ addr := by simpa using h 0 (by omega)
    have hrest : readBytes m₁ (addr + 1) w = readBytes m₂ (addr + 1) w := by
      apply ih
      intro i hi
      have := h (i + 1) (by omega)
      simpa [Nat.add_assoc, Nat.add_comm, Nat.add_left_comm] using this
    simp [readBytes, h0, hrest]

/-- Writing `w` bytes at `addr` leaves every address outside
`[addr, addr + w)` untouched. -/
theorem writeBytes_frame (m : Mem) (addr w v a : Nat)
    (h : a < addr ∨ addr + w ≤ a) : writeBytes m addr w v a = m a := by
  simp only [writeBytes]
  rw [if_neg]
  omega

/-- Reading back the `w` bytes just written yields the written value
reduced modulo the `w`-byte modulus. -/
theorem readBytes_writeBytes :
    ∀ (w : Nat) (m : Mem) (addr v : Nat),
      readBytes (writeBytes m addr w v) addr w = v % 256 ^ w := by
  intro w
  induction w with
  | zero => intro m addr v; simp [readBytes, Nat.mod_one]
  | succ w ih =>
    intro m addr v
    have hM0 : writeBytes m addr (w + 1) v addr = v % 256 := by
      simp [writeBytes]
    have hshift : readBytes (writeBytes m addr (w + 1) v) (addr + 1) w
        = readBytes (writeBytes m (addr + 1) w (v / 256)) (addr + 1) w := by
      apply readBytes_congr
      intro i hi
      simp only [writeBytes]
      rw [if_pos (by omega), if_pos (by omega)]
      have e1 : addr + 1 + i - addr = i + 1 := by omega
      have e2 : addr + 1 + i - (addr + 1) = i := by omega
      rw [e1, e2, Nat.div_div_eq_div_mul, pow_succ, Nat.mul_comm]
    rw [readBytes, hM0, hshift, ih, pow_succ, Nat.mul_comm (256 ^ w) 256,
      Nat.mod_mul, Nat.mod_mod_of_dvd v dvd_rfl]

/-- The rewrap helper changes nothing on bit patterns. -/
theorem map_result_eq (r : Result Nat Nat) : map_result r = r := by
  cases r <;> rfl

/-- Canonical form of `atomic_load`: on either path the returned value is
the `t.size`-byte value at `dst`, and a fallback call is recorded exactly
when the type is not lock-free. -/
theorem atomic_load_eq (tgt : Target) (t : TypeInfo) (m : Mem) (dst : Nat)
    (order : Ordering) :
    atomic_load tgt t m dst order =
      (readBytes m dst t.size,
       if atomic_is_lock_free tgt t then none else some (.load dst)) := by
  unfold atomic_load atomic_is_lock_free fallback.atomic_load atomicU_load
  split_ifs with h1 h2 h3 h4 <;> simp_all

/-- Canonical form of `atomic_store`. -/
theorem atomic_store_eq (tgt : Target) (t : TypeInfo) (m : Mem)
    (dst val : Nat) (order : Ordering) :
    atomic_store tgt t m dst val order =
      (writeBytes m dst t.size val,
       if atomic_is_lock_free tgt t then none else some (.store dst val)) := by
  unfold atomic_store atomic_is_lock_free fallback.atomic_store atomicU_store
  split_ifs with h1 h2 h3 h4 <;> simp_all

/-- Canonical form of `atomic_swap`. -/
theorem atomic_swap_eq (tgt : Target) (t : TypeInfo) (m : Mem)
    (dst val : Nat) (order : Ordering) :
    atomic_swap tgt t m dst val order =
      ((atomicU_swap t.size m dst val).1, (atomicU_swap t.size m dst val).2,
       if atomic_is_lock_free tgt t then none else some (.swap dst val)) := by
  unfold atomic_swap atomic_is_lock_free fallback.atomic_swap
  split_ifs with h1 h2 h3 h4 <;> simp_all

/-- Canonical form of `atomic_compare_exchange`: on either path the result
and the memory effect are those of the strong compare-exchange at width
`t.size`. -/
theorem atomic_compare_exchange_eq (tgt : Target) (t : TypeInfo) (m : Mem)
    (dst cur new : Nat) (so fo : Ordering) :
    atomic_compare_exchange tgt t m dst cur new so fo =
      ((atomicU_compare_exchange t.size m dst cur new).1,
       (atomicU_compare_exchange t.size m dst cur new).2,
       if atomic_is_lock_free tgt t then none
       else some (.compare_exchange dst cur new)) := by
  unfold atomic_compare_exchange atomic_is_lock_free
    fallback.atomic_compare_exchange
  split_ifs with h1 h2 h3 h4 <;> simp_all [map_result_eq]

/-- Canonical form of `atomic_compare_exchange_weak`: the native path uses
the weak primitive (with the spurious-failure oracle), the fallback path
uses the strong compare-exchange. -/
theorem atomic_compare_exchange_weak_eq (sp : Bool) (tgt : Target)
    (t : TypeInfo) (m : Mem) (dst cur new : Nat) (so fo : Ordering) :
    atomic_compare_exchange_weak sp tgt t m dst cur new so fo =
      if atomic_is_lock_free tgt t then
        ((atomicU_compare_exchange_weak t.size sp m dst cur new).1,
         (atomicU_compare_exchange_weak t.size sp m dst cur new).2, none)
      else
        ((atomicU_compare_exchange t.size m dst cur new).1,
         (atomicU_compare_exchange t.size m dst cur new).2,
         some (.compare_exchange dst cur new)) := by
  unfold atomic_compare_exchange_weak atomic_is_lock_free
    fallback.atomic_compare_exchange
  split_ifs with h1 h2 h3 h4 <;> simp_all [map_result_eq]

/-- Canonical form of `atomic_add`. -/
theorem atomic_add_eq (tgt : Target) (t : TypeInfo) (m : Mem)
    (dst val : Nat) (order : Ordering) :
    atomic_add tgt t m dst val order =
      ((atomicU_fetch_add t.size m dst val).1,
       (atomicU_fetch_add t.size m dst val).2,
       if atomic_is_lock_free tgt t then none else some (.add dst val)) := by
  unfold atomic_add atomic_is_lock_free fallback.atomic_add
  split_ifs with h1 h2 h3 h4 <;> simp_all

/-- Canonical form of `atomic_sub`. -/
theorem atomic_sub_eq (tgt : Target) (t : TypeInfo) (m : Mem)
    (dst val : Nat) (order : Ordering) :
    atomic_sub tgt t m dst val order =
      ((atomicU_fetch_sub t.size m dst val).1,
       (atomicU_fetch_sub t.size m dst val).2,
       if atomic_is_lock_free tgt t then none else some (.sub dst val)) := by
  unfold atomic_sub atomic_is_lock_free fallback.atomic_sub
  split_ifs with h1 h2 h3 h4 <;> simp_all

/-- Canonical form of `atomic_and`. -/
theorem atomic_and_eq (tgt : Target) (t : TypeInfo) (m : Mem)
    (dst val : Nat) (order : Ordering) :
    atomic_and tgt t m dst val order =
      ((atomicU_fetch_and t.size m dst val).1,
       (atomicU_fetch_and t.size m dst val).2,
       if atomic_is_lock_free tgt t then none else some (.and dst val)) := by
  unfold atomic_and atomic_is_lock_free fallback.atomic_and
  split_ifs with h1 h2 h3 h4 <;> simp_all

/-- Canonical form of `atomic_or`. -/
theorem atomic_or_eq (tgt : Target) (t : TypeInfo) (m : Mem)
    (dst val : Nat) (order : Ordering) :
    atomic_or tgt t m dst val order =
      ((atomicU_fetch_or t.size m dst val).1,
       (atomicU_fetch_or t.size m dst val).2,
       if atomic_is_lock_free tgt t then none else some (.or dst val)) := by
  unfold atomic_or atomic_is_lock_free fallback.atomic_or
  split_ifs with h1 h2 h3 h4 <;> simp_all

/-- Canonical form of `atomic_xor`. -/
theorem atomic_xor_eq (tgt : Target) (t : TypeInfo) (m : Mem)
    (dst val : Nat) (order : Ordering) :
    atomic_xor tgt t m dst val order =
      ((atomicU_fetch_xor t.size m dst val).1,
       (atomicU_fetch_xor t.size m dst val).2,
       if atomic_is_lock_free tgt t then none else some (.xor dst val)) := by
  unfold atomic_xor atomic_is_lock_free fallback.atomic_xor
  split_ifs with h1 h2 h3 h4 <;> simp_all

/-- Characterization of the classifier, shared by several results. -/
theorem lock_free_char (tgt : Target) (t : TypeInfo) :
    atomic_is_lock_free tgt t = true ↔
      ((t.size = 1 ∨ t.size = 2 ∨ t.size = 4 ∨ t.size = 8) ∧
       t.size ≤ t.align ∧ targetDeclares tgt t.size = true) := by
  rcases t with ⟨s, a⟩
  rcases s with _ | _ | _ | _ | _ | _ | _ | _ | _ | s <;>
    simp [atomic_is_lock_free, targetDeclares] <;>
    first
    | omega
    | tauto

/-- Wrapping subtraction undone by addition, modulo `N`. -/
theorem sub_wrap_cancel (N old v : Nat) (hN : 0 < N) :
    ((old + (N - v % N)) % N + v) % N = old % N := by
  rw [Nat.mod_add_mod]
  have h2 : v % N < N := Nat.mod_lt _ hN
  have h4 := Nat.div_add_mod v N
  have h5 : old + (N - v % N) + v = old + N * (v / N) + N := by omega
  have h6 : old + N * (v / N) + N = old + N * (v / N + 1) := by ring
  rw [h5, h6, Nat.add_mul_mod_self_left]

/-- Round-trip of the byte-list bridge, for any byte list. -/
theorem transmute_round_trip (bs : List Nat) (hb : ∀ b ∈ bs, b < 256) :
    transmute_from_uint bs.length (transmute_to_uint bs) = bs := by
  induction bs with
  | nil => rfl
  | cons b bs ih =>
    have hb0 : b < 256 := hb b (by simp)
    have hbs : ∀ x ∈ bs, x < 256 := fun x hx => hb x (by simp [hx])
    have h1 : (b % 256 + 256 * transmute_to_uint bs) % 256 = b := by omega
    have h2 : (b % 256 + 256 * transmute_to_uint bs) / 256
        = transmute_to_uint bs := by omega
    simp only [transmute_to_uint, List.length_cons, transmute_from_uint,
      h1, h2, ih hbs]

/-- C1: for a location holding the value X, `atomic_compare_exchange` with
`current = X` always succeeds, the memory at `dst` becomes Y and the
success variant carries X; with any `current = Z` different from X it
always fails, the memory is left untouched and the failure variant carries
the observed X. Holds on the native and (spec-modelled) fallback path
alike. -/
theorem C1_compare_exchange_correct (tgt : Target) (t : TypeInfo) (m : Mem)
    (dst Y Z : Nat) (so fo : Ordering) (hY : Y < 2 ^ (8 * t.size)) :
    ((atomic_compare_exchange tgt t m dst (readBytes m dst t.size) Y so fo).1
        = .Ok (readBytes m dst t.size) ∧
     readBytes
        (atomic_compare_exchange tgt t m dst (readBytes m dst t.size) Y so fo).2.1
        dst t.size = Y) ∧
    (Z ≠ readBytes m dst t.size →
     (atomic_compare_exchange tgt t m dst Z Y so fo).1
        = .Err (readBytes m dst t.size) ∧
     (atomic_compare_exchange tgt t m dst Z Y so fo).2.1 = m) := by
  have hY' : Y < 256 ^ t.size := by rwa [two_pow_eq_256_pow] at hY
  refine ⟨⟨?_, ?_⟩, fun hZ => ⟨?_, ?_⟩⟩
  · rw [atomic_compare_exchange_eq]
    simp [atomicU_compare_exchange]
  · rw [atomic_compare_exchange_eq]
    simp [atomicU_compare_exchange, readBytes_writeBytes, Nat.mod_eq_of_lt hY']
  · rw [atomic_compare_exchange_eq]
    simp [atomicU_compare_exchange, Ne.symm hZ]
  · rw [atomic_compare_exchange_eq]
    simp [atomicU_compare_exchange, Ne.symm hZ]

/-- C1 witness: one-byte type, all-capable target, memory holding 37,
exchanging for 5. -/
theorem C1_witness :
    (atomic_compare_exchange ⟨true, true, true, true⟩ ⟨1, 1⟩ (fun _ => 37) 0
        (readBytes (fun _ => 37) 0 1) 5 .SeqCst .SeqCst).1
      = .Ok (readBytes (fun _ => 37) 0 1) :=
  (C1_compare_exchange_correct ⟨true, true, true, true⟩ ⟨1, 1⟩ (fun _ => 37) 0
      5 3 .SeqCst .SeqCst (by norm_num)).1.1

/-- C2: `atomic_is_lock_free` is true exactly when the byte size is one of
1, 2, 4, 8, the alignment is at least that size and the build target
declares native atomic support for that width; its arguments are the
compile-time facts only (no memory parameter appears). -/
theorem C2_is_lock_free_iff (tgt : Target) (t : TypeInfo) :
    atomic_is_lock_free tgt t = true ↔
      ((t.size = 1 ∨ t.size = 2 ∨ t.size = 4 ∨ t.size = 8) ∧
       t.size ≤ t.align ∧ targetDeclares tgt t.size = true) :=
  lock_free_char tgt t

/-- C4: for every width w in {1, 2, 4, 8} and every bit pattern of w
bytes, bridging to the equal-size unsigned integer and back reproduces the
original bit pattern exactly. -/
theorem C4_bridge_round_trip (w : Nat) (bs : List Nat)
    (hw : w = 1 ∨ w = 2 ∨ w = 4 ∨ w = 8) (hlen : bs.length = w)
    (hb : ∀ b ∈ bs, b < 256) :
    transmute_from_uint w (transmute_to_uint bs) = bs := by
  subst hlen
  exact transmute_round_trip bs hb

/-- C4 witness: the two-byte pattern [171, 205]. -/
theorem C4_witness :
    (∀ b ∈ ([171, 205] : List Nat), b < 256) ∧
    transmute_from_uint 2 (transmute_to_uint [171, 205]) = [171, 205] :=
  ⟨by decide, C4_bridge_round_trip 2 [171, 205] (by decide) (by decide) (by decide)⟩

/-- C5: on an eligible (lock-free) type, `atomic_add` returns the previous
value and stores the wrapping sum modulo the bit width, and `atomic_sub`
returns the previous value and stores the value that addition of `val`
takes back to the previous value modulo the bit width (wrapping
subtraction). -/
theorem C5_add_sub_wraparound (tgt : Target) (t : TypeInfo) (m : Mem)
    (dst val : Nat) (order : Ordering)
    (h : atomic_is_lock_free tgt t = true) :
    ((atomic_add tgt t m dst val order).1 = readBytes m dst t.size ∧
     readBytes (atomic_add tgt t m dst val order).2.1 dst t.size
       = (readBytes m dst t.size + val) % 2 ^ (8 * t.size)) ∧
    ((atomic_sub tgt t m dst val order).1 = readBytes m dst t.size ∧
     (readBytes (atomic_sub tgt t m dst val order).2.1 dst t.size + val)
         % 2 ^ (8 * t.size)
       = readBytes m dst t.size % 2 ^ (8 * t.size)) := by
  have hN : (0 : Nat) < 256 ^ t.size := pow_pos (by norm_num) _
  refine ⟨⟨?_, ?_⟩, ⟨?_, ?_⟩⟩
  · rw [atomic_add_eq]
    rfl
  · rw [atomic_add_eq]
    simp only [atomicU_fetch_add]
    rw [readBytes_writeBytes, two_pow_eq_256_pow,
      Nat.mod_mod_of_dvd _ dvd_rfl]
  · rw [atomic_sub_eq]
    rfl
  · rw [atomic_sub_eq]
    simp only [atomicU_fetch_sub]
    rw [readBytes_writeBytes, two_pow_eq_256_pow,
      Nat.mod_mod_of_dvd _ dvd_rfl, sub_wrap_cancel _ _ _ hN]

/-- C5 witness: the example of the spec, an 8-bit location holding 250;
fetch_add of 10 returns 250 and the memory becomes 4. -/
theorem C5_witness :
    (atomic_add ⟨true, true, true, true⟩ ⟨1, 1⟩ (fun _ => 250) 0 10 .SeqCst).1
      = 250 ∧
    readBytes
      (atomic_add ⟨true, true, true, true⟩ ⟨1, 1⟩ (fun _ => 250) 0 10
        .SeqCst).2.1 0 1 = 4 := by
  obtain ⟨h1, h2⟩ :=
    (C5_add_sub_wraparound ⟨true, true, true, true⟩ ⟨1, 1⟩ (fun _ => 250) 0 10
      .SeqCst (by decide)).1
  refine ⟨by rw [h1]; decide, by rw [h2]; decide⟩

/-- C3 counterexample: for a fallback-routed type (size 3), the invocation
passed to the fallback by `atomic_load` is the same for two different
caller orderings; no reading of the forwarded call can recover the
ordering token, so the ordering is not forwarded to the fallback
subsystem. -/
theorem C3_counterexample :
    ¬ ∃ f : Option FallbackCall → Ordering,
        ∀ order : Ordering,
          f (atomic_load ⟨true, true, true, true⟩ ⟨3, 1⟩ (fun _ => 0) 0
              order).2 = order := by
  rintro ⟨f, hf⟩
  have h1 := hf .Relaxed
  have h2 := hf .SeqCst
  have e : ∀ order : Ordering,
      (atomic_load ⟨true, true, true, true⟩ ⟨3, 1⟩ (fun _ => 0) 0 order).2
        = some (.load 0) := fun _ => rfl
  rw [e] at h1 h2
  exact absurd (h1.symm.trans h2) (by decide)

/-- C3 amended: on the fallback path each of the nine fallback entry
points receives the location and value operands unchanged and its result
is returned unchanged; the ordering tokens are not among the forwarded
arguments (the fallback interface takes none), and the weak
compare-exchange forwards to the fallback's strong compare-exchange. -/
theorem C3_fallback_forwarding (sp : Bool) (tgt : Target) (t : TypeInfo)
    (m : Mem) (dst val cur new : Nat) (order so fo : Ordering)
    (h : atomic_is_lock_free tgt t = false) :
    atomic_load tgt t m dst order
      = (fallback.atomic_load t m dst, some (.load dst)) ∧
    atomic_store tgt t m dst val order
      = (fallback.atomic_store t m dst val, some (.store dst val)) ∧
    atomic_swap tgt t m dst val order
      = ((fallback.atomic_swap t m dst val).1,
         (fallback.atomic_swap t m dst val).2, some (.swap dst val)) ∧
    atomic_compare_exchange tgt t m dst cur new so fo
      = ((fallback.atomic_compare_exchange t m dst cur new).1,
         (fallback.atomic_compare_exchange t m dst cur new).2,
         some (.compare_exchange dst cur new)) ∧
    atomic_compare_exchange_weak sp tgt t m dst cur new so fo
      = ((fallback.atomic_compare_exchange t m dst cur new).1,
         (fallback.atomic_compare_exchange t m dst cur new).2,
         some (.compare_exchange dst cur new)) ∧
    atomic_add tgt t m dst val order
      = ((fallback.atomic_add t m dst val).1,
         (fallback.atomic_add t m dst val).2, some (.add dst val)) ∧
    atomic_sub tgt t m dst val order
      = ((fallback.atomic_sub t m dst val).1,
         (fallback.atomic_sub t m dst val).2, some (.sub dst val)) ∧
    atomic_and tgt t m dst val order
      = ((fallback.atomic_and t m dst val).1,
         (fallback.atomic_and t m dst val).2, some (.and dst val)) ∧
    atomic_or tgt t m dst val order
      = ((fallback.atomic_or t m dst val).1,
         (fallback.atomic_or t m dst val).2, some (.or dst val)) ∧
    atomic_xor tgt t m dst val order
      = ((fallback.atomic_xor t m dst val).1,
         (fallback.atomic_xor t m dst val).2, some (.xor dst val)) := by
  simp [atomic_load_eq, atomic_store_eq, atomic_swap_eq,
    atomic_compare_exchange_eq, atomic_compare_exchange_weak_eq,
    atomic_add_eq, atomic_sub_eq, atomic_and_eq, atomic_or_eq, atomic_xor_eq,
    h, fallback.atomic_load, fallback.atomic_store, fallback.atomic_swap,
    fallback.atomic_compare_exchange, fallback.atomic_add,
    fallback.atomic_sub, fallback.atomic_and, fallback.atomic_or,
    fallback.atomic_xor, atomicU_load, atomicU_store]

/-- C3 witness: a size-3 type is routed to the fallback with only the
location forwarded. -/
theorem C3_witness :
    atomic_is_lock_free ⟨true, true, true, true⟩ ⟨3, 1⟩ = false ∧
    atomic_load ⟨true, true, true, true⟩ ⟨3, 1⟩ (fun _ => 9) 2 .Relaxed
      = (fallback.atomic_load ⟨3, 1⟩ (fun _ => 9) 2, some (.load 2)) :=
  ⟨by decide,
   (C3_fallback_forwarding false ⟨true, true, true, true⟩ ⟨3, 1⟩ (fun _ => 9)
      2 0 0 0 .Relaxed .SeqCst .SeqCst (by decide)).1⟩

/-- C6: `atomic_compare_exchange_weak` meets the strong contract except
that (on the native path) it may spuriously report failure even when the
comparison would succeed, leaving memory untouched and returning the
observed value; on the fallback path, where no weak primitive exists, it
is implemented exactly as the strong compare-exchange, fabricating no
spurious failure. -/
theorem C6_weak_refines_strong (sp : Bool) (tgt : Target) (t : TypeInfo)
    (m : Mem) (dst cur new : Nat) (so fo : Ordering) :
    (((atomic_compare_exchange_weak sp tgt t m dst cur new so fo).1
        = (atomic_compare_exchange tgt t m dst cur new so fo).1 ∧
      (atomic_compare_exchange_weak sp tgt t m dst cur new so fo).2.1
        = (atomic_compare_exchange tgt t m dst cur new so fo).2.1) ∨
     (readBytes m dst t.size = cur ∧
      (atomic_compare_exchange_weak sp tgt t m dst cur new so fo).1
        = .Err (readBytes m dst t.size) ∧
      (atomic_compare_exchange_weak sp tgt t m dst cur new so fo).2.1 = m)) ∧
    (atomic_is_lock_free tgt t = false →
      atomic_compare_exchange_weak sp tgt t m dst cur new so fo
        = atomic_compare_exchange tgt t m dst cur new so fo) := by
  constructor
  · rw [atomic_compare_exchange_weak_eq, atomic_compare_exchange_eq]
    by_cases h : atomic_is_lock_free tgt t = true
    · cases sp with
      | false =>
        left
        simp [h, atomicU_compare_exchange_weak]
      | true =>
        by_cases hc : readBytes m dst t.size = cur
        · right
          refine ⟨hc, ?_, ?_⟩ <;> simp [h, atomicU_compare_exchange_weak]
        · left
          simp [h, atomicU_compare_exchange_weak, atomicU_compare_exchange, hc]
    · left
      simp [h]
  · intro h
    rw [atomic_compare_exchange_weak_eq, atomic_compare_exchange_eq]
    simp [h]

/-- C6 witness: fallback-path weak compare-exchange coincides with the
strong one even when the oracle asks for a spurious failure. -/
theorem C6_witness :
    atomic_is_lock_free ⟨true, true, true, true⟩ ⟨3, 1⟩ = false ∧
    atomic_compare_exchange_weak true ⟨true, true, true, true⟩ ⟨3, 1⟩
        (fun _ => 0) 0 1 2 .SeqCst .SeqCst
      = atomic_compare_exchange ⟨true, true, true, true⟩ ⟨3, 1⟩
        (fun _ => 0) 0 1 2 .SeqCst .SeqCst :=
  ⟨by decide,
   (C6_weak_refines_strong true ⟨true, true, true, true⟩ ⟨3, 1⟩ (fun _ => 0)
      0 1 2 .SeqCst .SeqCst).2 (by decide)⟩

/-- Frame fact for the strong compare-exchange primitive. -/
theorem atomicU_compare_exchange_frame (w : Nat) (m : Mem)
    (dst cur new a : Nat) (ha : a < dst ∨ dst + w ≤ a) :
    (atomicU_compare_exchange w m dst cur new).2 a = m a := by
  simp only [atomicU_compare_exchange]
  split_ifs with hc <;> simp [writeBytes_frame m dst w new a ha]

/-- Frame fact for the weak compare-exchange primitive. -/
theorem atomicU_compare_exchange_weak_frame (w : Nat) (sp : Bool) (m : Mem)
    (dst cur new a : Nat) (ha : a < dst ∨ dst + w ≤ a) :
    (atomicU_compare_exchange_weak w sp m dst cur new).2 a = m a := by
  unfold atomicU_compare_exchange_weak
  cases sp <;> simp [atomicU_compare_exchange_frame w m dst cur new a ha]

/-- C7: `atomic_swap` stores the operand and returns the value previously
stored; each of `atomic_add`, `atomic_sub`, `atomic_and`, `atomic_or`,
`atomic_xor` likewise returns the previous value while the memory becomes
the updated value, for every type (native or spec-modelled fallback
path). -/
theorem C7_rmw_previous_value (tgt : Target) (t : TypeInfo) (m : Mem)
    (dst val : Nat) (order : Ordering) (hv : val < 2 ^ (8 * t.size)) :
    ((atomic_swap tgt t m dst val order).1 = readBytes m dst t.size ∧
     readBytes (atomic_swap tgt t m dst val order).2.1 dst t.size = val) ∧
    ((atomic_add tgt t m dst val order).1 = readBytes m dst t.size ∧
     readBytes (atomic_add tgt t m dst val order).2.1 dst t.size
       = (readBytes m dst t.size + val) % 2 ^ (8 * t.size)) ∧
    ((atomic_sub tgt t m dst val order).1 = readBytes m dst t.size ∧
     (readBytes (atomic_sub tgt t m dst val order).2.1 dst t.size + val)
         % 2 ^ (8 * t.size) = readBytes m dst t.size % 2 ^ (8 * t.size)) ∧
    ((atomic_and tgt t m dst val order).1 = readBytes m dst t.size ∧
     readBytes (atomic_and tgt t m dst val order).2.1 dst t.size
       = readBytes m dst t.size &&& val) ∧
    ((atomic_or tgt t m dst val order).1 = readBytes m dst t.size ∧
     readBytes (atomic_or tgt t m dst val order).2.1 dst t.size
       = readBytes m dst t.size ||| val) ∧
    ((atomic_xor tgt t m dst val order).1 = readBytes m dst t.size ∧
     readBytes (atomic_xor tgt t m dst val order).2.1 dst t.size
       = readBytes m dst t.size ^^^ val) := by
  have hlt : readBytes m dst t.size < 256 ^ t.size := readBytes_lt m dst t.size
  have hv' : val < 256 ^ t.size := by rwa [two_pow_eq_256_pow] at hv
  have hlt2 : readBytes m dst t.size < 2 ^ (8 * t.size) := by
    rwa [two_pow_eq_256_pow]
  refine ⟨⟨?_, ?_⟩, ⟨?_, ?_⟩, ⟨?_, ?_⟩, ⟨?_, ?_⟩, ⟨?_, ?_⟩, ⟨?_, ?_⟩⟩
  · rw [atomic_swap_eq]
    rfl
  · rw [atomic_swap_eq]
    simp only [atomicU_swap]
    rw [readBytes_writeBytes, Nat.mod_eq_of_lt hv']
  · rw [atomic_add_eq]
    rfl
  · rw [atomic_add_eq]
    simp only [atomicU_fetch_add]
    rw [readBytes_writeBytes, two_pow_eq_256_pow,
      Nat.mod_mod_of_dvd _ dvd_rfl]
  · rw [atomic_sub_eq]
    rfl
  · rw [atomic_sub_eq]
    simp only [atomicU_fetch_sub]
    rw [readBytes_writeBytes, two_pow_eq_256_pow,
      Nat.mod_mod_of_dvd _ dvd_rfl,
      sub_wrap_cancel _ _ _ (pow_pos (by norm_num) _)]
  · rw [atomic_and_eq]
    rfl
  · rw [atomic_and_eq]
    simp only [atomicU_fetch_and]
    rw [readBytes_writeBytes,
      Nat.mod_eq_of_lt (lt_of_le_of_lt Nat.and_le_left hlt)]
  · rw [atomic_or_eq]
    rfl
  · rw [atomic_or_eq]
    simp only [atomicU_fetch_or]
    have hb : readBytes m dst t.size ||| val < 256 ^ t.size := by
      rw [← two_pow_eq_256_pow]
      exact Nat.or_lt_two_pow hlt2 hv
    rw [readBytes_writeBytes, Nat.mod_eq_of_lt hb]
  · rw [atomic_xor_eq]
    rfl
  · rw [atomic_xor_eq]
    simp only [atomicU_fetch_xor]
    have hb : readBytes m dst t.size ^^^ val < 256 ^ t.size := by
      rw [← two_pow_eq_256_pow]
      exact Nat.xor_lt_two_pow hlt2 hv
    rw [readBytes_writeBytes, Nat.mod_eq_of_lt hb]

/-- C7 witness: swapping 5 into a one-byte location holding 37. -/
theorem C7_witness :
    (atomic_swap ⟨true, true, true, true⟩ ⟨1, 1⟩ (fun _ => 37) 0 5 .AcqRel).1
      = 37 ∧
    readBytes
      (atomic_swap ⟨true, true, true, true⟩ ⟨1, 1⟩ (fun _ => 37) 0 5
        .AcqRel).2.1 0 1 = 5 := by
  obtain ⟨h1, h2⟩ :=
    (C7_rmw_previous_value ⟨true, true, true, true⟩ ⟨1, 1⟩ (fun _ => 37) 0 5
      .AcqRel (by norm_num)).1
  exact ⟨by rw [h1]; decide, by rw [h2]⟩

/-- C8: `atomic_load` returns the value currently stored and, being a pure
function of the memory, mutates nothing; its result depends only on the
bytes of the addressed range; and every memory-writing operation leaves
each address outside `[dst, dst + size)` exactly as it was. Statelessness
is by construction: each operation is a function of its explicit arguments
only. -/
theorem C8_frame (sp : Bool) (tgt : Target) (t : TypeInfo) (m m₂ : Mem)
    (dst val cur new a : Nat) (order so fo : Ordering)
    (ha : a < dst ∨ dst + t.size ≤ a)
    (hagree : ∀ i, i < t.size → m (dst + i) = m₂ (dst + i)) :
    (atomic_load tgt t m dst order).1 = readBytes m dst t.size ∧
    (atomic_load tgt t m dst order).1 = (atomic_load tgt t m₂ dst order).1 ∧
    (atomic_store tgt t m dst val order).1 a = m a ∧
    (atomic_swap tgt t m dst val order).2.1 a = m a ∧
    (atomic_compare_exchange tgt t m dst cur new so fo).2.1 a = m a ∧
    (atomic_compare_exchange_weak sp tgt t m dst cur new so fo).2.1 a = m a ∧
    (atomic_add tgt t m dst val order).2.1 a = m a ∧
    (atomic_sub tgt t m dst val order).2.1 a = m a ∧
    (atomic_and tgt t m dst val order).2.1 a = m a ∧
    (atomic_or tgt t m dst val order).2.1 a = m a ∧
    (atomic_xor tgt t m dst val order).2.1 a = m a := by
  refine ⟨?_, ?_, ?_, ?_, ?_, ?_, ?_, ?_, ?_, ?_, ?_⟩
  · rw [atomic_load_eq]
  · rw [atomic_load_eq, atomic_load_eq]
    exact readBytes_congr hagree
  · rw [atomic_store_eq]
    exact writeBytes_frame m dst t.size val a ha
  · rw [atomic_swap_eq]
    exact writeBytes_frame m dst t.size val a ha
  · rw [atomic_compare_exchange_eq]
    exact atomicU_compare_exchange_frame t.size m dst cur new a ha
  · rw [atomic_compare_exchange_weak_eq]
    by_cases h : atomic_is_lock_free tgt t = true <;>
      simp [h, atomicU_compare_exchange_weak_frame t.size sp m dst cur new a ha,
        atomicU_compare_exchange_frame t.size m dst cur new a ha]
  · rw [atomic_add_eq]
    exact writeBytes_frame m dst t.size _ a ha
  · rw [atomic_sub_eq]
    exact writeBytes_frame m dst t.size _ a ha
  · rw [atomic_and_eq]
    exact writeBytes_frame m dst t.size _ a ha
  · rw [atomic_or_eq]
    exact writeBytes_frame m dst t.size _ a ha
  · rw [atomic_xor_eq]
    exact writeBytes_frame m dst t.size _ a ha

/-- C8 witness: storing into a one-byte location leaves address 5
unchanged. -/
theorem C8_witness :
    (atomic_store ⟨true, true, true, true⟩ ⟨1, 1⟩ (fun _ => 7) 0 9
        .SeqCst).1 5 = 7 :=
  (C8_frame false ⟨true, true, true, true⟩ ⟨1, 1⟩ (fun _ => 7) (fun _ => 7)
      0 9 0 0 5 .SeqCst .SeqCst .SeqCst (by decide)
      (fun _ _ => rfl)).2.2.1

/-- C9: for every type — native-path or fallback-routed alike — loads,
stores, swaps and the fetch operations complete and return plain values
(no error channel exists to signal), and the two compare-exchange forms
return one of their two designed outcomes carrying the observed previous
value. The quantification over arbitrary `tgt` and `t` includes every
type without hardware atomic support for its width: such a type is served
by the fallback with the same contract, never a surfaced failure. -/
theorem C9_no_errors (sp : Bool) (tgt : Target) (t : TypeInfo) (m : Mem)
    (dst val cur new : Nat) (order so fo : Ordering) :
    (atomic_load tgt t m dst order).1 = readBytes m dst t.size ∧
    (atomic_store tgt t m dst val order).1 = writeBytes m dst t.size val ∧
    (atomic_swap tgt t m dst val order).1 = readBytes m dst t.size ∧
    (atomic_add tgt t m dst val order).1 = readBytes m dst t.size ∧
    (atomic_sub tgt t m dst val order).1 = readBytes m dst t.size ∧
    (atomic_and tgt t m dst val order).1 = readBytes m dst t.size ∧
    (atomic_or tgt t m dst val order).1 = readBytes m dst t.size ∧
    (atomic_xor tgt t m dst val order).1 = readBytes m dst t.size ∧
    ((atomic_compare_exchange tgt t m dst cur new so fo).1
        = .Ok (readBytes m dst t.size) ∨
     (atomic_compare_exchange tgt t m dst cur new so fo).1
        = .Err (readBytes m dst t.size)) ∧
    ((atomic_compare_exchange_weak sp tgt t m dst cur new so fo).1
        = .Ok (readBytes m dst t.size) ∨
     (atomic_compare_exchange_weak sp tgt t m dst cur new so fo).1
        = .Err (readBytes m dst t.size)) := by
  refine ⟨?_, ?_, ?_, ?_, ?_, ?_, ?_, ?_, ?_, ?_⟩
  · rw [atomic_load_eq]
  · rw [atomic_store_eq]
  · rw [atomic_swap_eq]
    rfl
  · rw [atomic_add_eq]
    rfl
  · rw [atomic_sub_eq]
    rfl
  · rw [atomic_and_eq]
    rfl
  · rw [atomic_or_eq]
    rfl
  · rw [atomic_xor_eq]
    rfl
  · rw [atomic_compare_exchange_eq]
    by_cases hc : readBytes m dst t.size = cur
    · left
      simp [atomicU_compare_exchange, hc]
    · right
      simp [atomicU_compare_exchange, hc]
  · rw [atomic_compare_exchange_weak_eq]
    by_cases h : atomic_is_lock_free tgt t = true
    · simp only [h, if_pos]
      cases sp with
      | true =>
        right
        simp [atomicU_compare_exchange_weak]
      | false =>
        by_cases hc : readBytes m dst t.size = cur
        · left
          simp [atomicU_compare_exchange_weak, atomicU_compare_exchange, hc]
        · right
          simp [atomicU_compare_exchange_weak, atomicU_compare_exchange, hc]
    · simp only [if_neg h]
      by_cases hc : readBytes m dst t.size = cur
      · left
        simp [atomicU_compare_exchange, hc]
      · right
        simp [atomicU_compare_exchange, hc]

/-- C9 witness: a size-3 type, unsupported by the hardware widths, still
loads its stored value through the fallback. -/
theorem C9_witness :
    (atomic_load ⟨true, true, true, true⟩ ⟨3, 1⟩ (fun _ => 1) 0 .SeqCst).1
      = readBytes (fun _ => 1) 0 3 :=
  (C9_no_errors false ⟨true, true, true, true⟩ ⟨3, 1⟩ (fun _ => 1) 0 0 0 0
      .SeqCst .SeqCst .SeqCst).1

/-- C10: every public operation takes the native path exactly when
`atomic_is_lock_free` is true — the recorded fallback invocation is
`none` if and only if the classifier says lock-free, for each of the ten
entry points — and any size outside {1, 2, 4, 8} (such as 0 or 3) is
never lock-free, hence routed to the fallback by every operation. -/
theorem C10_uniform_dispatch (sp : Bool) (tgt : Target) (t : TypeInfo)
    (m : Mem) (dst val cur new : Nat) (order so fo : Ordering) :
    ((atomic_load tgt t m dst order).2 = none
        ↔ atomic_is_lock_free tgt t = true) ∧
    ((atomic_store tgt t m dst val order).2 = none
        ↔ atomic_is_lock_free tgt t = true) ∧
    ((atomic_swap tgt t m dst val order).2.2 = none
        ↔ atomic_is_lock_free tgt t = true) ∧
    ((atomic_compare_exchange tgt t m dst cur new so fo).2.2 = none
        ↔ atomic_is_lock_free tgt t = true) ∧
    ((atomic_compare_exchange_weak sp tgt t m dst cur new so fo).2.2 = none
        ↔ atomic_is_lock_free tgt t = true) ∧
    ((atomic_add tgt t m dst val order).2.2 = none
        ↔ atomic_is_lock_free tgt t = true) ∧
    ((atomic_sub tgt t m dst val order).2.2 = none
        ↔ atomic_is_lock_free tgt t = true) ∧
    ((atomic_and tgt t m dst val order).2.2 = none
        ↔ atomic_is_lock_free tgt t = true) ∧
    ((atomic_or tgt t m dst val order).2.2 = none
        ↔ atomic_is_lock_free tgt t = true) ∧
    ((atomic_xor tgt t m dst val order).2.2 = none
        ↔ atomic_is_lock_free tgt t = true) ∧
    (t.size ≠ 1 ∧ t.size ≠ 2 ∧ t.size ≠ 4 ∧ t.size ≠ 8 →
      atomic_is_lock_free tgt t = false) := by
  have hlast : t.size ≠ 1 ∧ t.size ≠ 2 ∧ t.size ≠ 4 ∧ t.size ≠ 8 →
      atomic_is_lock_free tgt t = false := by
    intro hs
    rcases Bool.eq_false_or_eq_true (atomic_is_lock_free tgt t) with ht | hf
    · have := ((lock_free_char tgt t).mp ht).1
      tauto
    · exact hf
  by_cases h : atomic_is_lock_free tgt t = true <;>
    refine ⟨?_, ?_, ?_, ?_, ?_, ?_, ?_, ?_, ?_, ?_, hlast⟩ <;>
    simp [atomic_load_eq, atomic_store_eq, atomic_swap_eq,
      atomic_compare_exchange_eq, atomic_compare_exchange_weak_eq,
      atomic_add_eq, atomic_sub_eq, atomic_and_eq, atomic_or_eq,
      atomic_xor_eq, h]

/-- C10 witness: a size-3 type with ample alignment is not lock-free. -/
theorem C10_witness :
    atomic_is_lock_free ⟨true, true, true, true⟩ ⟨3, 4⟩ = false :=
  (C10_uniform_dispatch false ⟨true, true, true, true⟩ ⟨3, 4⟩ (fun _ => 0)
      0 0 0 0 .SeqCst .SeqCst
      .SeqCst).2.2.2.2.2.2.2.2.2.2 (by decide)

end Atomic
